import Mathlib

/-!
Verification of the git-history analyzer (`src/analyzer/GitAnalyzer.ts`).

The development shallowly embeds the analyzer's pure computational core:
the raw `git log --numstat` text parser (`parseRawLog`), the per-commit
language classifier (`detectLanguage`), the aggregation pipeline
(`analyze` and its helpers), the persona classifier (`calculatePersona`)
and the multi-repository merger (`mergeAnalysisResults`).

Modelling conventions:
* JavaScript strings are Lean `String`s; the handful of string primitives
  the source uses (`split`, `trim`-blankness, `includes`, `parseInt`,
  `toLowerCase`, regex character filters) are defined below on `String.data`
  so that they are easy to compute with and reason about.
* JavaScript `number`s holding counts are `Nat`, signed totals are `Int`,
  and the two ratio/percentage computations are `Rat` (exact arithmetic in
  place of IEEE doubles; the source only compares them against 0, 1/2 and 50).
* A JavaScript `Map` is an insertion-ordered association list
  (`List (κ × ν)`); `setA` models `Map.set` (update in place, insertion
  order preserved), `getA` models `Map.get`.
* A JavaScript `Date`/moment timestamp is abstracted to the views the
  analyzer actually reads: an absolute calendar-day index (`day`, models
  the `YYYY-MM-DD` rendering, ordered the same way), a day-of-week in 0..6,
  an hour in 0..23 and the `YYYY-MM` month string.  Reads of the wall
  clock (`moment()`, `new Date().getFullYear()`) are passed in explicitly
  as a `Clock` value.
* `Array.prototype.sort` (stable since ES2019) is modelled by a stable
  insertion sort `sortJS` parameterised by the comparator's `≤` test.
-/

/-! ## JavaScript string primitives -/

/-- `cs.split(sep)` on character lists: JavaScript `String.split` with a
single-character separator (no limit argument). -/
def splitOnChar (sep : Char) : List Char → List (List Char)
  | [] => [[]]
  | c :: tl =>
    let r := splitOnChar sep tl
    if c = sep then
      [] :: r
    else
      match r with
      | h :: t => (c :: h) :: t
      | [] => [[c]]

theorem splitOnChar_ne_nil (sep : Char) (cs : List Char) : splitOnChar sep cs ≠ [] := by
  induction cs with
  | nil => simp [splitOnChar]
  | cons c tl ih =>
    simp only [splitOnChar]
    split
    · simp
    · cases h : splitOnChar sep tl with
      | nil => exact absurd h ih
      | cons a b => simp [h]

theorem splitOnChar_length (sep : Char) (cs : List Char) :
    (splitOnChar sep cs).length = cs.count sep + 1 := by
  induction cs with
  | nil => simp [splitOnChar]
  | cons c tl ih =>
    simp only [splitOnChar]
    split
    · rename_i h
      simp [List.count_cons, h, ih]
    · rename_i h
      cases hr : splitOnChar sep tl with
      | nil => exact absurd hr (splitOnChar_ne_nil sep tl)
      | cons a b =>
        have : c ≠ sep := h
        simp [List.count_cons, this, ← ih, hr]

/-- If the separator does not occur in `xs`, the split of `xs ++ sep :: ys`
starts with `xs`. -/
theorem splitOnChar_append (sep : Char) (xs ys : List Char) (h : xs.count sep = 0) :
    splitOnChar sep (xs ++ sep :: ys) = xs :: splitOnChar sep ys := by
  induction xs with
  | nil => simp [splitOnChar]
  | cons c tl ih =>
    have hc : c ≠ sep := by
      intro hcs
      simp [List.count_cons, hcs] at h
    have htl : tl.count sep = 0 := by
      simp [List.count_cons, hc] at h
      omega
    simp only [List.cons_append, splitOnChar, List.append_eq]
    rw [ih htl]
    simp [hc]

/-- If the separator does not occur in `xs`, `xs` splits to itself. -/
theorem splitOnChar_no_sep (sep : Char) (xs : List Char) (h : xs.count sep = 0) :
    splitOnChar sep xs = [xs] := by
  induction xs with
  | nil => simp [splitOnChar]
  | cons c tl ih =>
    have hc : c ≠ sep := by
      intro hcs
      simp [List.count_cons, hcs] at h
    have htl : tl.count sep = 0 := by
      simp [List.count_cons, hc] at h
      omega
    simp [splitOnChar, ih htl, hc]

/-- `line.split('\t')`, as a list of strings. -/
def splitTabs (s : String) : List String :=
  (splitOnChar '\t' s.data).map String.mk

/-- `line.includes('\t')`. -/
def containsTab (s : String) : Bool :=
  s.data.contains '\t'

/-- `line.trim() === ''`: every character of the line is whitespace. -/
def isBlankLine (s : String) : Bool :=
  s.data.all (fun c => c.isWhitespace)

/-- Leading decimal digits of a character list. -/
def leadingDigits (cs : List Char) : List Char :=
  cs.takeWhile (fun c => c.isDigit)

/-- Numeric value of a (decimal) digit list. -/
def digitsVal (ds : List Char) : Nat :=
  ds.foldl (fun n c => n * 10 + (c.toNat - 48)) 0

/-- JavaScript `parseInt(s, 10)`: skip leading whitespace, optional sign,
then the longest digit prefix; `none` models `NaN`. -/
def jsParseInt (s : String) : Option Int :=
  let cs := s.data.dropWhile (fun c => c.isWhitespace)
  match cs with
  | '-' :: rest =>
    if leadingDigits rest = [] then none else some (-(digitsVal (leadingDigits rest) : Int))
  | '+' :: rest =>
    if leadingDigits rest = [] then none else some ((digitsVal (leadingDigits rest) : Int))
  | _ =>
    if leadingDigits cs = [] then none else some ((digitsVal (leadingDigits cs) : Int))

/-- `isNaN(x) ? 0 : x` composed with `parseInt`. -/
def jsParseIntD (s : String) : Int :=
  (jsParseInt s).getD 0

/-! ## Insertion-ordered association lists (JavaScript `Map`) -/

/-- `Map.get
`: first binding of the key, if any. -/
def getA {κ ν : Type} [BEq κ] : List (κ × ν) → κ → Option ν
  | [], _ => none
  | (a, v) :: tl, k => if a == k then some v else getA tl k

/-- `Map.set`: overwrite in place if the key is present (insertion order
kept), append otherwise. -/
def setA {κ ν : Type} [BEq κ] : List (κ × ν) → κ → ν → List (κ × ν)
  | [], k, v => [(k, v)]
  | (a, w) :: tl, k, v => if a == k then (a, v) :: tl else (a, w) :: setA tl k v

/-- `map.set(k, (map.get(k) || 0) + n)`. -/
def addA {κ : Type} [BEq κ] (m : List (κ × Nat)) (k : κ) (n : Nat) : List (κ × Nat) :=
  setA m k ((getA m k).getD 0 + n)

/-- `map.set(k, (map.get(k) || 0) + 1)`. -/
def bumpA {κ : Type} [BEq κ] (m : List (κ × Nat)) (k : κ) : List (κ × Nat) :=
  addA m k 1

/-! ## Stable sort (JavaScript `Array.prototype.sort`) -/

/-- Insert `x` into `l` after every element `y` with `le y x`; used from the
left this realises a stable sort for the comparator whose `cmp(y,x) <= 0`
test is `le y x`. -/
def insertJS {α : Type} (le : α → α → Bool) (x : α) : List α → List α
  | [] => [x]
  | y :: tl => if le y x then y :: insertJS le x tl else x :: y :: tl

/-- Stable comparator sort modelling `Array.prototype.sort`. -/
def sortJS {α : Type} (le : α → α → Bool) (l : List α) : List α :=
  l.foldl (fun acc x => insertJS le x acc) []

theorem insertJS_perm {α : Type} (le : α → α → Bool) (x : α) (l : List α) :
    (insertJS le x l).Perm (x :: l) := by
  induction l with
  | nil => simp [insertJS]
  | cons y tl ih =>
    simp only [insertJS]
    split
    · exact ((ih.cons y).trans (List.Perm.swap x y tl))
    · exact List.Perm.refl _

theorem sortJS_foldl_perm {α : Type} (le : α → α → Bool) (l acc : List α) :
    (l.foldl (fun acc x => insertJS le x acc) acc).Perm (acc ++ l) := by
  induction l generalizing acc with
  | nil => simp
  | cons x tl ih =>
    simp only [List.foldl_cons]
    refine (ih (insertJS le x acc)).trans ?_
    have h1 : (insertJS le x acc ++ tl).Perm ((x :: acc) ++ tl) :=
      (insertJS_perm le x acc).append_right tl
    refine h1.trans ?_
    simpa using List.perm_middle.symm

theorem sortJS_perm {α : Type} (le : α → α → Bool) (l : List α) :
    (sortJS le l).Perm l := by
  simpa [sortJS] using sortJS_foldl_perm le l []

/-! ## `path.basename` / `path.extname` and the language table -/

/-- Index of the last occurrence of `c`, if any. -/
def lastIdxOf (c : Char) (cs : List Char) : Option Nat :=
  (cs.foldl (fun (acc : Option Nat × Nat) ch =>
    (if ch = c then some acc.2 else acc.1, acc.2 + 1)) (none, 0)).1

/-- `path.basename`: the component after the last `/`. -/
def pathBasename (p : String) : String :=
  String.mk ((splitOnChar '/' p.data).getLastD [])

/-- `path.extname`: from the last dot of the basename to its end, unless
that dot is the first character or absent. -/
def pathExtname (p : String) : String :=
  let b := (pathBasename p).data
  match lastIdxOf '.' b with
  | none => ""
  | some 0 => ""
  | some i => String.mk (b.drop i)

/-- The static extension → language table of `getLanguageFromExtension`. -/
def languageTable : List (String × String) :=
  [(".js", "JavaScript"), (".ts", "TypeScript"), (".jsx", "JavaScript"), (".tsx", "TypeScript"),
   (".py", "Python"), (".java", "Java"), (".go", "Go"), (".rs", "Rust"),
   (".cpp", "C++"), (".c", "C"), (".cs", "C#"), (".php", "PHP"),
   (".rb", "Ruby"), (".swift", "Swift"), (".kt", "Kotlin"), (".dart", "Dart"),
   (".html", "HTML"), (".css", "CSS"), (".scss", "SCSS"), (".sass", "Sass"), (".less", "Less"),
   (".vue", "Vue"), (".json", "JSON"), (".xml", "XML"), (".yaml", "YAML"), (".yml", "YAML"),
   (".md", "Markdown"), (".sql", "SQL"), (".sh", "Shell"), (".bat", "Batch")]

/-- `getLanguageFromExtension`: table lookup with fallback `"Other"`. -/
def getLanguageFromExtension (ext : String) : String :=
  (languageTable.lookup ext).getD "Other"

/-! ## The parser (`parseRawLog`) and classifier (`detectLanguage`) -/

/-- A parsed commit record.  The date parameter is `String` for the parser
(the record field holds whatever ISO text the header line carried; the
parser never inspects it) and `CDate` for the analyzer. -/
structure GitCommit (δ : Type) where
  hash : String
  date : δ
  message : String
  author : String
  email : String
  files : List String
  insertions : Int
  deletions : Int
  language : String
deriving DecidableEq, Repr

/-- `detectLanguage`: dominant language of a changed-file list; empty list
maps to `"Unknown"`, ties broken by first-encountered extension. -/
def detectLanguage (files : List String) : String :=
  if files = [] then "Unknown"
  else
    let extCount := files.foldl (fun m f => bumpA m ((pathExtname f).toLower)) []
    let best := extCount.foldl
      (fun (acc : Nat × String) kv => if kv.2 > acc.1 then (kv.2, kv.1) else acc) (0, "")
    getLanguageFromExtension best.2

/-- The two states of the `parseRawLog` line scanner: `meta` with no pending
record (the source's `currentCommit` is `null` whenever the loop re-enters
the meta state) and `stats` carrying the pending record under construction. -/
inductive PState where
  | meta : PState
  | stats : GitCommit String → PState

/-- Loop-measure rank of a parser state. -/
def stateRank : PState → Nat
  | .meta => 0
  | .stats _ => 1

/-- The source's `finalizeCommit` closure: emit the pending record if its
hash is truthy, computing the dominant language on the way out. -/
def finalizeCommit (c : GitCommit String) : List (GitCommit String) :=
  if c.hash = "" then [] else [{ c with language := detectLanguage c.files }]

/-- Accumulate one well-formed numstat triple into the pending record:
a `"-"` placeholder (binary file) counts as 0, as does any non-numeric
field (`isNaN` guard). -/
def accumStat (c : GitCommit String) (a b p : String) : GitCommit String :=
  let ins : Int := if a = "-" then 0 else jsParseIntD a
  let del : Int := if b = "-" then 0 else jsParseIntD b
  { c with insertions := c.insertions + ins,
           deletions := c.deletions + del,
           files := c.files ++ [p] }

theorem length_dropWhile_le' {α : Type} (p : α → Bool) (l : List α) :
    (l.dropWhile p).length ≤ l.length := by
  induction l with
  | nil => simp [List.dropWhile]
  | cons x tl ih =>
    simp only [List.dropWhile, List.length_cons]
    split
    · exact le_trans ih (Nat.le_succ _)
    · simp

/-- The `parseRawLog` while-loop, one call per iteration over the remaining
lines.  In the meta state five header lines are consumed unconditionally
(fewer than five remaining lines break out of the loop with no pending
record to finalize); in the stats state a fixed-length tab-free line
finalizes the pending record and re-enters meta at the same line,
blank lines are skipped, three-field lines are accumulated and anything
else is ignored. -/
def parseLoop : List String → PState → List (GitCommit String)
  | l, .meta =>
    (match l with
     | a :: b :: m :: d :: e :: rest =>
       parseLoop (rest.dropWhile isBlankLine)
         (.stats { hash := a, date := b, message := m, author := d, email := e,
                   files := [], insertions := 0, deletions := 0, language := "" })
     | _ => [])
  | [], .stats c => finalizeCommit c
  | line :: rest, .stats c =>
    if line.length = 40 ∧ containsTab line = false then
      finalizeCommit c ++ parseLoop (line :: rest) .meta
    else if isBlankLine line then
      parseLoop rest (.stats c)
    else
      match splitTabs line with
      | [a, b, p] => parseLoop rest (.stats (accumStat c a b p))
      | _ => parseLoop rest (.stats c)
termination_by l s => l.length * 2 + stateRank s
decreasing_by
  · have := length_dropWhile_le' isBlankLine rest
    simp [stateRank]
    omega
  · simp [stateRank]
  · simp [stateRank]
  · simp [stateRank]
  · simp [stateRank]

/-- `parseRawLog`: split the raw log text on newlines and scan. -/
def parseRawLog (raw : String) : List (GitCommit String) :=
  parseLoop ((splitOnChar '\n' raw.data).map String.mk) .meta

/-! ## Analyzer data model -/

/-- The views of a commit timestamp that the analyzer reads: the absolute
calendar-day index (stands for the `YYYY-MM-DD` rendering, with the same
ordering), `moment().day()` in 0..6, `moment().hour()` in 0..23 and the
`YYYY-MM` month string. -/
structure CDate where
  day : Nat
  dow : Fin 7
  hour : Fin 24
  month : String
deriving DecidableEq, Repr

/-- Analyzer-side commit: a `GitCommit` whose date has been parsed. -/
abbrev Commit := GitCommit CDate

/-- Wall-clock inputs of the analyzer: `moment()`'s current day index and
`new Date().getFullYear()`. -/
structure Clock where
  today : Nat
  year : Nat
deriving DecidableEq, Repr

/-- One entry of `languageStats`. -/
structure LangStat where
  count : Nat
  percentage : Rat
deriving DecidableEq, Repr

/-- The three frequency maps of `timeStats`. -/
structure TimeStats where
  byHour : List (Nat × Nat)
  byDayOfWeek : List (Nat × Nat)
  byMonth : List (String × Nat)
deriving DecidableEq, Repr

/-- `streakStats`. -/
structure StreakStats where
  longestStreak : Nat
  currentStreak : Nat
  totalActiveDays : Nat
deriving DecidableEq, Repr

/-- One entry of `projectStats`. -/
structure ProjectStat where
  path : String
  name : String
  commits : Nat
  lines : Int
deriving DecidableEq, Repr

/-- `commitTrends`: ascending monthly and daily {date, count} series. -/
structure Trends where
  monthly : List (String × Nat)
  daily : List (Nat × Nat)
deriving DecidableEq, Repr

/-- An achievement entry. -/
structure Achievement where
  id : String
  name : String
  description : String
  icon : String
  unlocked : Bool
  progress : Option String
deriving DecidableEq, Repr

/-- The persona classification. -/
structure Persona where
  title : String
  description : String
deriving DecidableEq, Repr

/-- `GitAnalysisResult`. -/
structure GitAnalysisResult where
  totalCommits : Nat
  totalInsertions : Int
  totalDeletions : Int
  netLines : Int
  languageStats : List (String × LangStat)
  timeStats : TimeStats
  streakStats : StreakStats
  projectStats : List ProjectStat
  commitTrends : Trends
  punchCard : List (List Nat)
  topKeywords : List (String × Nat)
  achievements : List Achievement
  persona : Persona
deriving DecidableEq, Repr

/-! ## Aggregation helpers -/

/-- `Math.round` (half rounds toward positive infinity). -/
def jsRound (q : Rat) : Int :=
  ⌊q + 1/2⌋

/-- `analyzeLanguages`: count classified files over all commits' file
lists (the classifier never returns a falsy label, so every file counts),
then attach rounded percentages. -/
def analyzeLanguages (commits : List Commit) : List (String × LangStat) :=
  let step := fun (acc : List (String × Nat) × Nat) (c : Commit) =>
    c.files.foldl (fun (acc : List (String × Nat) × Nat) f =>
      let lang := getLanguageFromExtension ((pathExtname f).toLower)
      if lang = "" then acc else (bumpA acc.1 lang, acc.2 + 1)) acc
  let counted := commits.foldl step ([], 0)
  counted.1.map (fun kv =>
    (kv.1, { count := kv.2,
             percentage := (jsRound ((kv.2 : Rat) / (counted.2 : Rat) * 100) : Int) }))

/-- `analyzeTimePatterns`: hour / day-of-week / month frequency maps. -/
def analyzeTimePatterns (commits : List Commit) : TimeStats :=
  commits.foldl (fun ts c =>
    { byHour := bumpA ts.byHour c.date.hour.val,
      byDayOfWeek := bumpA ts.byDayOfWeek c.date.dow.val,
      byMonth := bumpA ts.byMonth c.date.month })
    { byHour := [], byDayOfWeek := [], byMonth := [] }

/-- Distinct active day indices, ascending (`Array.from(set).sort()` on the
`YYYY-MM-DD` strings; the preliminary in-place sort of the commit array only
changes the set's insertion order, which the final sort erases). -/
def activeDates (commits : List Commit) : List Nat :=
  sortJS (fun a b => decide (a ≤ b)) ((commits.map (fun c => c.date.day)).dedup)

/-- The `longestStreak` scan: `tempStreak` grows while consecutive dates are
exactly one day apart, `longestStreak` takes the running maximum (both are
initialised to 1, and a final `max` is taken after the loop). -/
def lrAux (prev : Nat) (longest temp : Nat) : List Nat → Nat
  | [] => max longest temp
  | d :: tl =>
    if (d : Int) - (prev : Int) = 1 then lrAux d longest (temp + 1) tl
    else lrAux d (max longest temp) 1 tl

/-- `longestStreak` over the sorted distinct date list. -/
def longestRun : List Nat → Nat
  | [] => 1
  | d :: rest => lrAux d 1 1 rest

/-- The `currentStreak` scan: walk the date list backwards and count while
`dates[i]` equals today minus the count so far, stopping at the first
mismatch. -/
def crAux (today : Nat) : List Nat → Nat → Nat
  | [], c => c
  | d :: tl, c => if (d : Int) = (today : Int) - (c : Int) then crAux today tl (c + 1) else c

/-- `currentStreak` over the sorted distinct date list. -/
def currentRun (dates : List Nat) (today : Nat) : Nat :=
  crAux today dates.reverse 0

/-- `analyzeStreaks`. -/
def analyzeStreaks (commits : List Commit) (today : Nat) : StreakStats :=
  if commits = [] then { longestStreak := 0, currentStreak := 0, totalActiveDays := 0 }
  else
    let dates := activeDates commits
    { longestStreak := longestRun dates,
      currentStreak := currentRun dates today,
      totalActiveDays := dates.length }

/-- `analyzeProjects`: a single entry for the analysed repository. -/
def analyzeProjects (repoPath : String) (commits : List Commit) : List ProjectStat :=
  [{ path := repoPath,
     name := pathBasename repoPath,
     commits := commits.length,
     lines := (commits.foldl (fun s c => s + c.insertions + c.deletions) 0 : Int) }]

/-- Lexicographic codepoint order on strings (`localeCompare <= 0` for the
ASCII date keys the trends use). -/
def lexLe : List Char → List Char → Bool
  | [], _ => true
  | _ :: _, [] => false
  | a :: as, b :: bs =>
    if a.val < b.val then true
    else if b.val < a.val then false
    else lexLe as bs

/-- `analyzeTrends`: daily and monthly commit counts, sorted ascending. -/
def analyzeTrends (commits : List Commit) : Trends :=
  let maps := commits.foldl (fun (acc : List (String × Nat) × List (Nat × Nat)) c =>
    (bumpA acc.1 c.date.month, bumpA acc.2 c.date.day)) ([], [])
  { monthly := sortJS (fun a b => lexLe a.1.data b.1.data) maps.1,
    daily := sortJS (fun a b => decide (a.1 ≤ b.1)) maps.2 }

/-- Increment position `i` of a row. -/
def incAt : List Nat → Nat → List Nat
  | [], _ => []
  | x :: tl, 0 => (x + 1) :: tl
  | x :: tl, n + 1 => x :: incAt tl n

/-- Increment cell `[d][h]` of the punch card. -/
def incCard : List (List Nat) → Nat → Nat → List (List Nat)
  | [], _, _ => []
  | row :: tl, 0, h => incAt row h :: tl
  | row :: tl, d + 1, h => row :: incCard tl d h

/-- `analyzePunchCard`: 7×24 matrix incremented per commit at
`[day][hour]`. -/
def analyzePunchCard (commits : List Commit) : List (List Nat) :=
  commits.foldl (fun card c => incCard card c.date.dow.val c.date.hour.val)
    (List.replicate 7 (List.replicate 24 0))

/-- JavaScript `\w` (ASCII word character). -/
def isWordCharJS (c : Char) : Bool :=
  (('a' ≤ c ∧ c ≤ 'z') ∨ ('A' ≤ c ∧ c ≤ 'Z') ∨ ('0' ≤ c ∧ c ≤ '9') ∨ c = '_')

/-- `message.replace(/[^\w\s]/g, '')`: keep word characters and
whitespace. -/
def stripPunct (cs : List Char) : List Char :=
  cs.filter (fun c => isWordCharJS c || c.isWhitespace)

/-- `.split(/\s+/)`: split on maximal whitespace runs (a leading run yields
an initial empty token, as in JavaScript). -/
def wsSplit : List Char → List String
  | [] => [""]
  | c :: tl =>
    if c.isWhitespace then "" :: wsSplit (tl.dropWhile (fun c => c.isWhitespace))
    else
      match wsSplit tl with
      | h :: t => (String.mk (c :: h.data)) :: t
      | [] => [String.mk [c]]
termination_by l => l.length
decreasing_by
  · have := length_dropWhile_le' (fun c : Char => c.isWhitespace) tl
    simp
    omega
  · simp

/-- The stop-word set of `analyzeKeywords`. -/
def stopWords : List String :=
  ["the", "a", "an", "to", "in", "for", "of", "and", "or", "with", "by", "from",
   "update", "add", "remove", "fix", "merge", "delete", "create"]

/-- `analyzeKeywords`: lower-case, strip punctuation, split on whitespace,
drop short and stop words, count, rank by count descending (stable) and
keep the top 20. -/
def analyzeKeywords (commits : List Commit) : List (String × Nat) :=
  let counts := commits.foldl (fun m c =>
    let words := wsSplit (stripPunct c.message.toLower.data)
    words.foldl (fun m w =>
      if w.length > 2 ∧ ¬ (stopWords.contains w) then bumpA m w else m) m) []
  (sortJS (fun a b => decide (b.2 ≤ a.2)) counts).take 20

/-! ## Achievements and persona -/

/-- `n.toFixed(1)` (round half away from zero, one decimal digit). -/
def ratToFixed1 (q : Rat) : String :=
  let n : Int := if q ≥ 0 then ⌊q * 10 + 1/2⌋ else -⌊(-q) * 10 + 1/2⌋
  let sign := if n < 0 then "-" else ""
  let m := n.natAbs
  sign ++ toString (m / 10) ++ "." ++ toString (m % 10)

/-- Thousands grouping on a reversed digit list. -/
def groupRev : List Char → List Char
  | a :: b :: c :: d :: tl => a :: b :: c :: ',' :: groupRev (d :: tl)
  | l => l

/-- `n.toLocaleString()` for integers (comma thousands separators). -/
def intToLocale (n : Int) : String :=
  let sign := if n < 0 then "-" else ""
  sign ++ String.mk (groupRev (toString n.natAbs).data.reverse).reverse

/-- Whether `pat` starts `hay`. -/
def startsWithCL : List Char → List Char → Bool
  | _, [] => true
  | [], _ :: _ => false
  | h :: t, p :: ps => h = p && startsWithCL t ps

/-- Whether `pat` occurs as a contiguous substring of `hay`. -/
def hasSub (pat : List Char) : List Char → Bool
  | [] => startsWithCL [] pat
  | c :: tl => startsWithCL (c :: tl) pat || hasSub pat tl

/-- `s.endsWith(suf)`. -/
def strEndsWith (s suf : String) : Bool :=
  startsWithCL s.data.reverse suf.data.reverse

/-- A case-insensitive regex alternation test such as `/fix|bug|修复/i`:
lower-case the message and look for any of the (lower-case) patterns. -/
def msgMatches (pats : List String) (msg : String) : Bool :=
  pats.any (fun p => hasSub p.data msg.toLower.data)

/-- `achievements.find(a => a.id === i)` followed by in-place mutation of
the found entry. -/
def updateById : List Achievement → String → (Achievement → Achievement) → List Achievement
  | [], _, _ => []
  | a :: tl, i, f => if a.id = i then f a :: tl else a :: updateById tl i f

/-- `calculateAchievements`: the fixed rule catalogue evaluated against the
aggregate result and the raw commits; only unlocked entries are returned. -/
def calculateAchievements (stats : GitAnalysisResult) (commits : List Commit) : List Achievement :=
  let longest := stats.streakStats.longestStreak
  let langCount := stats.languageStats.length
  let p100 := min stats.totalCommits 100
  let p500 := min stats.totalCommits 500
  let p1000 := min stats.totalCommits 1000
  let base : List Achievement := [
    { id := "first-commit", name := "初出茅庐",
      description := "完成了人生第一次代码提交,开启了编程之旅。每个伟大的项目都始于第一行代码!",
      icon := "🌱", unlocked := stats.totalCommits > 0, progress := none },
    { id := "100-commits", name := "百炼成钢",
      description := "累计提交达到 100 次!你已经养成了良好的版本控制习惯,每一次提交都是进步的见证。",
      icon := "🔨", unlocked := stats.totalCommits ≥ 100, progress := some s!"{p100}/100" },
    { id := "500-commits", name := "代码老兵",
      description := "累计提交达到 500 次!你已经是经验丰富的开发者,见证了无数次代码的迭代与演进。",
      icon := "🎖️", unlocked := stats.totalCommits ≥ 500, progress := some s!"{p500}/500" },
    { id := "1000-commits", name := "千锤百炼",
      description := "累计提交达到 1000 次!这是一个里程碑,你的坚持和热情令人敬佩。",
      icon := "⚔️", unlocked := stats.totalCommits ≥ 1000, progress := some s!"{p1000}/1000" },
    { id := "night-owl", name := "夜猫子",
      description := "在深夜 (0点-5点) 提交代码超过 20 次",
      icon := "🦉", unlocked := false, progress := none },
    { id := "weekend-warrior", name := "周末战士",
      description := "在周末提交代码超过 50 次",
      icon := "🏖️", unlocked := false, progress := none },
    { id := "consistency-king", name := "持之以恒",
      description := s!"连续 7 天以上保持提交!你的自律和坚持是成功的关键,最长连击记录: {longest} 天。",
      icon := "🔥", unlocked := longest ≥ 7, progress := some s!"{longest}/7" },
    { id := "polyglot", name := "语言大师",
      description := "掌握 5 种以上编程语言!你是真正的全栈开发者,能够在不同技术栈间自由切换。",
      icon := "🌍", unlocked := langCount ≥ 5, progress := some s!"{langCount}/5" }]
  let nightCommits := commits.countP (fun c => decide (c.date.hour.val < 5))
  let weekendCommits := commits.countP (fun c => decide (c.date.dow.val = 0 ∨ c.date.dow.val = 6))
  let midnightCommits := commits.countP (fun c => decide (c.date.hour.val ≤ 1))
  let dailyCommits := commits.foldl (fun m c => bumpA m c.date.day) []
  let bugFixCommits := commits.countP (fun c => msgMatches ["fix", "bug", "修复"] c.message)
  let refactorCommits := commits.countP (fun c => msgMatches ["refactor", "重构"] c.message)
  let docCommits := commits.countP (fun c => c.files.any (fun f => strEndsWith f ".md"))
  let l2 := updateById base "night-owl" (fun a =>
    { a with unlocked := nightCommits ≥ 20,
             description := s!"在深夜 (0点-5点) 提交代码超过 20 次!你是真正的夜行者,在静谧的夜晚创造着代码的魔法。当前: {nightCommits} 次深夜提交。",
             progress := some s!"{nightCommits}/20" })
  let l3 := updateById l2 "weekend-warrior" (fun a =>
    { a with unlocked := weekendCommits ≥ 50,
             description := s!"在周末提交代码超过 50 次!当别人休息时,你依然在编程的世界里探索。当前: {weekendCommits} 次周末提交。",
             progress := some s!"{weekendCommits}/50" })
  let earlyBird := commits.countP (fun c => decide (5 ≤ c.date.hour.val ∧ c.date.hour.val ≤ 8))
  let maxDailyCommits := (dailyCommits.map (fun kv => kv.2)).foldl max 0
  let avgLinesPerCommit : Rat :=
    if stats.totalCommits > 0 then
      ((stats.totalInsertions + stats.totalDeletions : Int) : Rat) / (stats.totalCommits : Rat)
    else 0
  let refactorRatio : Rat :=
    (stats.totalDeletions : Rat) / (if stats.totalInsertions = 0 then 1 else (stats.totalInsertions : Rat))
  let avgStr := ratToFixed1 avgLinesPerCommit
  let ratioStr := ratToFixed1 (refactorRatio * 100)
  let netStr := intToLocale stats.netLines
  let giantProgress := intToLocale (min stats.netLines 10000)
  let activeDays := stats.streakStats.totalActiveDays
  let tail : List Achievement := [
    { id := "early-bird", name := "早起的鸟儿",
      description := s!"在清晨 (5点-8点) 提交代码超过 10 次!一日之计在于晨,你用清晨的时光书写着高质量的代码。当前: {earlyBird} 次清晨提交。",
      icon := "🌅", unlocked := earlyBird ≥ 10, progress := some s!"{earlyBird}/10" },
    { id := "midnight-coder", name := "午夜编程者",
      description := s!"在午夜 (0点-1点) 提交代码超过 10 次!你在一天的交界处编写代码,见证着日期的更替。当前: {midnightCommits} 次午夜提交。",
      icon := "🌙", unlocked := midnightCommits ≥ 10, progress := some s!"{midnightCommits}/10" },
    { id := "code-rocket", name := "代码火箭",
      description := s!"单日提交超过 10 次!你的编程效率惊人,在一天内完成了大量的代码迭代。单日最高: {maxDailyCommits} 次提交。",
      icon := "🚀", unlocked := maxDailyCommits ≥ 10, progress := some s!"{maxDailyCommits}/10" },
    { id := "bug-terminator", name := "Bug终结者",
      description := s!"提交信息包含\"fix\"或\"bug\"超过 30 次!你是团队的守护者,不断修复问题让代码更加健壮。当前: {bugFixCommits} 次修复提交。",
      icon := "🔧", unlocked := bugFixCommits ≥ 30, progress := some s!"{bugFixCommits}/30" },
    { id := "refactor-artist", name := "重构艺术家",
      description := s!"提交信息包含\"refactor\"或\"重构\"超过 15 次!你深知代码质量的重要性,不断优化和改进现有代码。当前: {refactorCommits} 次重构提交。",
      icon := "🎨", unlocked := refactorCommits ≥ 15, progress := some s!"{refactorCommits}/15" },
    { id := "doc-master", name := "文档达人",
      description := s!"提交包含 Markdown 文件超过 20 次!你明白好的文档和好的代码同样重要,为项目留下了宝贵的知识财富。当前: {docCommits} 次文档提交。",
      icon := "📚", unlocked := docCommits ≥ 20, progress := some s!"{docCommits}/20" },
    { id := "quality-guardian", name := "质量守护者",
      description := s!"平均每次提交代码行数少于 50 行!你遵循\"小步快跑\"的原则,每次提交都小而精,易于审查和回滚。平均: {avgStr} 行/提交。",
      icon := "💎", unlocked := avgLinesPerCommit > 0 ∧ avgLinesPerCommit < 50, progress := none },
    { id := "code-giant", name := "代码巨人",
      description := s!"累计贡献超过 10,000 行代码!你的代码量足以构建一个完整的系统,你是真正的代码生产者。当前: {netStr} 行净增量。",
      icon := "🏗️", unlocked := stats.netLines ≥ 10000, progress := some s!"{giantProgress}/10,000" },
    { id := "minimalist", name := "极简主义者",
      description := s!"删除代码量达到新增代码量的 50% 以上!你深知\"少即是多\"的道理,通过删除冗余代码来提升系统质量。删除/新增比例: {ratioStr}%。",
      icon := "🧹", unlocked := refactorRatio ≥ 1/2, progress := none },
    { id := "active-developer", name := "活跃开发者",
      description := s!"活跃天数超过 100 天!你几乎每天都在编程,这份热情和坚持令人钦佩。当前: {activeDays} 天活跃。",
      icon := "⚡", unlocked := activeDays ≥ 100, progress := some s!"{activeDays}/100" }]
  (l3 ++ tail).filter (fun a => a.unlocked)

/-- `calculatePersona`: the decision tree over the aggregate statistics.
`year` is the source's `new Date().getFullYear()` clock read.  The late-hour
test reproduces the JavaScript precedence of `byHour.get(23) || 0 > 50`,
which parses as `byHour.get(23) || (0 > 50)` and is therefore just the
truthiness of the hour-23 count. -/
def calculatePersona (stats : GitAnalysisResult) (year : Nat) : Persona :=
  let languages := stats.languageStats.map (fun kv => kv.1)
  let topLang := match languages with
    | [] => "Code"
    | l :: _ => if l = "" then "Code" else l
  let title :=
    if stats.totalCommits > 1000 then
      (if stats.netLines > 50000 then "代码造物主" else "全栈艺术家")
    else if stats.totalCommits > 500 then
      (if stats.streakStats.longestStreak > 30 then "持之以恒的大师" else "资深开发者")
    else if stats.totalCommits > 100 then s!"{topLang} 工程师"
    else "编程学徒"
  if stats.totalDeletions > stats.totalInsertions then
    { title := "极简主义者",
      description := "你深知\"少即是多\"的道理，致力于通过删除冗余代码来提升系统质量。" }
  else if stats.streakStats.longestStreak > 60 then
    { title := "代码马拉松选手",
      description := "编程对你来说不是短跑，而是一场马拉松。你惊人的毅力令人钦佩。" }
  else if ((getA stats.timeStats.byHour 23).getD 0) ≠ 0 then
    { title := "守夜人",
      description := "当城市入睡时，你的代码在屏幕上闪耀。你是深夜里最亮的星。" }
  else
    { title := title,
      description := s!"你在 {year} 年提交了 {stats.totalCommits} 次代码，贡献了 {stats.netLines} 行净增量。继续保持这份热情！" }

/-- `analyze` applied to an already-fetched commit list (the source method
first awaits the log fetch, then computes exactly this). -/
def analyze (commits : List Commit) (repoPath : String) (clock : Clock) : GitAnalysisResult :=
  let totalInsertions := commits.foldl (fun s c => s + c.insertions) 0
  let totalDeletions := commits.foldl (fun s c => s + c.deletions) 0
  let base : GitAnalysisResult := {
    totalCommits := commits.length,
    totalInsertions := totalInsertions,
    totalDeletions := totalDeletions,
    netLines := totalInsertions - totalDeletions,
    languageStats := analyzeLanguages commits,
    timeStats := analyzeTimePatterns commits,
    streakStats := analyzeStreaks commits clock.today,
    projectStats := analyzeProjects repoPath commits,
    commitTrends := analyzeTrends commits,
    punchCard := analyzePunchCard commits,
    topKeywords := analyzeKeywords commits,
    achievements := [],
    persona := { title := "", description := "" } }
  let withAch := { base with achievements := calculateAchievements base commits }
  { withAch with persona := calculatePersona withAch clock.year }

/-! ## Multi-repository merge -/

/-- One input of `mergeAnalysisResults`. -/
structure MergeInput where
  result : GitAnalysisResult
  projectPath : String
  projectName : String

/-- One entry of the merger's `projectDetails`. -/
structure ProjectDetail where
  path : String
  name : String
  commits : Nat
  lines : Int
  active : Bool
deriving DecidableEq, Repr

/-- The merger's return value: the merged result spread together with the
sorted project details. -/
structure MergedResult where
  result : GitAnalysisResult
  projectDetails : List ProjectDetail

/-- The zero-initialised accumulator of the merge loop. -/
def emptyMerged : GitAnalysisResult :=
  { totalCommits := 0, totalInsertions := 0, totalDeletions := 0, netLines := 0,
    languageStats := [],
    timeStats := { byHour := [], byDayOfWeek := [], byMonth := [] },
    streakStats := { longestStreak := 0, currentStreak := 0, totalActiveDays := 0 },
    projectStats := [],
    commitTrends := { monthly := [], daily := [] },
    punchCard := List.replicate 7 (List.replicate 24 0),
    topKeywords := [],
    achievements := [],
    persona := { title := "编程学徒", description := "正在分析你的编程足迹..." } }

/-- Per-input language merge: add counts into existing entries (their stale
percentage is kept until the recompute), append fresh entries with
percentage 0. -/
def mergeLangs (m r : List (String × LangStat)) : List (String × LangStat) :=
  r.foldl (fun acc kv =>
    match getA acc kv.1 with
    | some st => setA acc kv.1 { st with count := st.count + kv.2.count }
    | none => acc ++ [(kv.1, { count := kv.2.count, percentage := 0 })]) m

/-- Cell-wise merge of the three time maps. -/
def addTimeMaps (a b : TimeStats) : TimeStats :=
  { byHour := b.byHour.foldl (fun m kv => addA m kv.1 kv.2) a.byHour,
    byDayOfWeek := b.byDayOfWeek.foldl (fun m kv => addA m kv.1 kv.2) a.byDayOfWeek,
    byMonth := b.byMonth.foldl (fun m kv => addA m kv.1 kv.2) a.byMonth }

/-- Cell-wise sum of two punch cards over the fixed 7×24 index ranges. -/
def addCard (a b : List (List Nat)) : List (List Nat) :=
  (List.range 7).map (fun i => (List.range 24).map (fun j =>
    ((a.getD i []).getD j 0) + ((b.getD i []).getD j 0)))

/-- The project-detail record pushed for each merge input. -/
def toDetail (x : MergeInput) : ProjectDetail :=
  { path := x.projectPath, name := x.projectName,
    commits := x.result.totalCommits, lines := x.result.netLines,
    active := x.result.totalCommits > 0 }

/-- One iteration of the merge loop. -/
def mergeStep (acc : GitAnalysisResult × List ProjectDetail) (x : MergeInput) :
    GitAnalysisResult × List ProjectDetail :=
  let r := x.result
  let m := acc.1
  ({ m with
      totalCommits := m.totalCommits + r.totalCommits,
      totalInsertions := m.totalInsertions + r.totalInsertions,
      totalDeletions := m.totalDeletions + r.totalDeletions,
      netLines := m.netLines + r.netLines,
      languageStats := mergeLangs m.languageStats r.languageStats,
      timeStats := addTimeMaps m.timeStats r.timeStats,
      streakStats := {
        longestStreak := max m.streakStats.longestStreak r.streakStats.longestStreak,
        currentStreak := max m.streakStats.currentStreak r.streakStats.currentStreak,
        totalActiveDays := m.streakStats.totalActiveDays + r.streakStats.totalActiveDays },
      punchCard := addCard m.punchCard r.punchCard,
      projectStats := m.projectStats ++ r.projectStats,
      commitTrends := { monthly := m.commitTrends.monthly ++ r.commitTrends.monthly,
                        daily := m.commitTrends.daily ++ r.commitTrends.daily } },
   acc.2 ++ [toDetail x])

/-- `Set.add`. -/
def addToSet (s : List String) (x : String) : List String :=
  if s.contains x then s else s ++ [x]

/-- Project-count milestone chain (≥50 / ≥20 / ≥10 / ≥5). -/
def projMilestones (totalProjects : Nat) : List Achievement :=
  if totalProjects ≥ 50 then
    [{ id := "project-collector-50", name := "项目收藏家",
       description := s!"在 {totalProjects} 个项目中有过代码贡献！你是真正的开源达人，在无数项目中留下了足迹。",
       icon := "🏆", unlocked := true, progress := some s!"{totalProjects}/50+" }]
  else if totalProjects ≥ 20 then
    [{ id := "project-explorer-20", name := "项目探险家",
       description := s!"在 {totalProjects} 个不同项目中工作过！你勇于尝试各种技术和领域，探索未知的项目世界。",
       icon := "🧭", unlocked := true, progress := some s!"{totalProjects}/20" }]
  else if totalProjects ≥ 10 then
    [{ id := "project-jumper-10", name := "项目跳跃者",
       description := s!"跨越 {totalProjects} 个项目！你就像在代码世界中穿梭的忍者，灵活应对各种挑战。",
       icon := "🥷", unlocked := true, progress := some s!"{totalProjects}/10" }]
  else if totalProjects ≥ 5 then
    [{ id := "project-nomad-5", name := "项目游牧民",
       description := s!"在 {totalProjects} 个项目间游牧！你的代码足迹遍布多个项目，展现了极强的适应性。",
       icon := "🏕️", unlocked := true, progress := some s!"{totalProjects}/5" }]
  else []

/-- Active-project milestone chain (≥10 / ≥5). -/
def activeMilestones (activeCount : Nat) : List Achievement :=
  if activeCount ≥ 10 then
    [{ id := "active-projects-10", name := "全能战士",
       description := s!"同时在 {activeCount} 个项目中保持活跃！你是真正的多任务处理大师，精力充沛得令人羡慕。",
       icon := "⚡", unlocked := true, progress := some s!"{activeCount}/10" }]
  else if activeCount ≥ 5 then
    [{ id := "active-projects-5", name := "项目达人",
       description := s!"在 {activeCount} 个项目中都有贡献！你善于平衡多个项目，是真正的项目管理专家。",
       icon := "🎯", unlocked := true, progress := some s!"{activeCount}/5" }]
  else []

/-- Focus milestone (many projects, few active). -/
def focusedMilestone (totalProjects activeCount : Nat) : List Achievement :=
  if totalProjects ≥ 10 ∧ activeCount ≤ 3 then
    [{ id := "focused-developer", name := "专注的工匠",
       description := s!"虽然接触了 {totalProjects} 个项目，但只专注于 {activeCount} 个核心项目。深度胜过广度，你是真正的代码工匠。",
       icon := "🎨", unlocked := true, progress := none }]
  else []

/-- Language-diversity milestone; the source only ever inserts the literal
`'JavaScript'` into the set, so the ≥5 test can never pass. -/
def langDiversityMilestones (activeProjects : List ProjectDetail) : List Achievement :=
  let uniqueLanguages := activeProjects.foldl
    (fun s p => if p.commits > 0 then addToSet s "JavaScript" else s) []
  if uniqueLanguages.length ≥ 5 then
    [{ id := "language-diversity-5", name := "语言大师",
       description := s!"在项目中使用 {uniqueLanguages.length} 种编程语言！你的技术栈广度令人印象深刻，真正的全能开发者。",
       icon := "🌐", unlocked := true, progress := none }]
  else []

/-- Singleton "loyal" milestone: exactly one project total and one active. -/
def loyalMilestone (totalProjects activeCount : Nat) : List Achievement :=
  if totalProjects = 1 ∧ activeCount = 1 then
    [{ id := "loyal-developer", name := "忠实的守护者",
       description := "始终如一地专注于这一个项目。你的专注和坚持令人敬佩，是真正的项目守护者。",
       icon := "🛡️", unlocked := true, progress := none }]
  else []

/-- Persona narrative override for multi-project runs (≥20 / ≥10 / ≥5). -/
def personaOverride (totalProjects year : Nat) (p : Persona) : Persona :=
  if totalProjects ≥ 20 then
    { title := "项目探索家",
      description := s!"你在 {year} 年跨越了 {totalProjects} 个项目，是真正的代码世界探险家。" }
  else if totalProjects ≥ 10 then
    { title := "多面手开发者",
      description := s!"你在 {year} 年在 {totalProjects} 个项目中留下代码足迹，展现了惊人的适应性。" }
  else if totalProjects ≥ 5 then
    { title := "项目跳跃者",
      description := s!"你在 {year} 年活跃于 {totalProjects} 个项目，是真正的代码游牧民。" }
  else p

/-- `addProjectMilestones`: append the project-count milestones and adjust
the persona. -/
def addProjectMilestones (merged : GitAnalysisResult) (projectDetails : List ProjectDetail)
    (year : Nat) : GitAnalysisResult :=
  let totalProjects := projectDetails.length
  let activeProjects := projectDetails.filter (fun p => p.active)
  let activeCount := activeProjects.length
  { merged with
      achievements := merged.achievements ++ projMilestones totalProjects
        ++ activeMilestones activeCount
        ++ focusedMilestone totalProjects activeCount
        ++ langDiversityMilestones activeProjects
        ++ loyalMilestone totalProjects activeCount,
      persona := personaOverride totalProjects year merged.persona }

/-- The merge loop over all inputs: accumulated result plus the
project-detail list in input order. -/
def mergeAggregate (results : List MergeInput) : GitAnalysisResult × List ProjectDetail :=
  results.foldl mergeStep (emptyMerged, [])

/-- Post-loop recomputation: language percentages from merged counts
(zero-guarded), languages sorted by count descending, monthly trends
re-aggregated by month key and re-sorted, top keywords taken from the first
input. -/
def mergeRecompute (results : List MergeInput) : GitAnalysisResult :=
  let m1 := (mergeAggregate results).1
  let totalLanguageCount : Nat :=
    (m1.languageStats.map (fun kv => kv.2.count)).foldl (fun s n => s + n) 0
  let langs2 := m1.languageStats.map (fun kv =>
    let pct : Rat :=
      if totalLanguageCount > 0 then (kv.2.count : Rat) / (totalLanguageCount : Rat) * 100
      else 0
    (kv.1, { count := kv.2.count, percentage := pct : LangStat }))
  let langs3 := sortJS (fun a b => decide (b.2.count ≤ a.2.count)) langs2
  let monthlyMap := m1.commitTrends.monthly.foldl (fun mm kv => addA mm kv.1 kv.2) []
  let monthly2 := sortJS (fun a b => lexLe a.1.data b.1.data) monthlyMap
  let topKw := match results with
    | [] => []
    | i :: _ => i.result.topKeywords
  { m1 with
      languageStats := langs3,
      commitTrends := { monthly := monthly2, daily := m1.commitTrends.daily },
      topKeywords := topKw }

/-- Achievement and persona re-evaluation against the merged totals (the
source passes an empty commit list to the achievement evaluator here). -/
def mergeWithPersona (results : List MergeInput) (clock : Clock) : GitAnalysisResult :=
  let m2 := mergeRecompute results
  let m3 := { m2 with achievements := calculateAchievements m2 [] }
  { m3 with persona := calculatePersona m3 clock.year }

/-- Project details sorted by commit count descending. -/
def mergeDetailsSorted (results : List MergeInput) : List ProjectDetail :=
  sortJS (fun a b => decide (b.commits ≤ a.commits)) (mergeAggregate results).2

/-- The merge pipeline for a non-empty input list. -/
def mergeBody (results : List MergeInput) (clock : Clock) : MergedResult :=
  { result := addProjectMilestones (mergeWithPersona results clock)
      (mergeDetailsSorted results) clock.year,
    projectDetails := mergeDetailsSorted results }

/-- `mergeAnalysisResults`: throws on an empty input list, otherwise runs
the merge pipeline. -/
def mergeAnalysisResults (results : List MergeInput) (clock : Clock) :
    Except String MergedResult :=
  if results.length = 0 then Except.error "没有可合并的分析结果"
  else Except.ok (mergeBody results clock)

/-! ## Parser lemmas and claim theorems -/

theorem mk_data (s : String) : String.mk s.data = s := by
  cases s
  rfl

/-- A line that splits into three tab-separated fields contains a tab. -/
theorem containsTab_of_three (line : String) (h : (splitTabs line).length = 3) :
    containsTab line = true := by
  have hlen : (splitOnChar '\t' line.data).length = line.data.count '\t' + 1 :=
    splitOnChar_length '\t' line.data
  have h3 : (splitOnChar '\t' line.data).length = 3 := by
    simpa [splitTabs] using h
  have hc : line.data.count '\t' = 2 := by omega
  have hmem : '\t' ∈ line.data := by
    have : 0 < line.data.count '\t' := by omega
    exact List.count_pos_iff.mp this
  simpa [containsTab] using hmem

/-- Meta state with fewer than five remaining lines: loop breaks, nothing
is emitted. -/
theorem parseLoop_meta_short (l : List String) (h : l.length < 5) :
    parseLoop l .meta = [] := by
  rcases l with _ | ⟨a, _ | ⟨b, _ | ⟨c, _ | ⟨d, _ | ⟨e, tl⟩⟩⟩⟩⟩
  · simp [parseLoop]
  · simp [parseLoop]
  · simp [parseLoop]
  · simp [parseLoop]
  · simp [parseLoop]
  · simp at h
    omega

/-- C1: in the Stats state a line of length exactly 40 with no tab
finalizes the pending record (emitting it, when its hash is non-empty, with
its dominant language computed by `detectLanguage`) and restarts the Meta
state at that same line; the restarted Meta state consumes that line as the
next record's hash when at least five lines remain, and when fewer than
five lines remain at the start of a Meta header the truncated header is
discarded silently with no partial commit emitted. -/
theorem parse_boundary_line_restarts_meta
    (c : GitCommit String) (line : String) (rest : List String)
    (hlen : line.length = 40) (htab : containsTab line = false) :
    parseLoop (line :: rest) (.stats c) = finalizeCommit c ++ parseLoop (line :: rest) .meta
    ∧ finalizeCommit c =
        (if c.hash = "" then [] else [{ c with language := detectLanguage c.files }])
    ∧ (∀ l2 l3 l4 l5 : String, ∀ rest2 : List String,
        parseLoop (line :: l2 :: l3 :: l4 :: l5 :: rest2) .meta =
          parseLoop (rest2.dropWhile isBlankLine)
            (.stats { hash := line, date := l2, message := l3, author := l4, email := l5,
                      files := [], insertions := 0, deletions := 0, language := "" }))
    ∧ (∀ l : List String, l.length < 5 → parseLoop l .meta = []) := by
  refine ⟨by simp [parseLoop, hlen, htab], rfl, ?_, fun l h => parseLoop_meta_short l h⟩
  intro l2 l3 l4 l5 rest2
  simp [parseLoop]

/-- Fixed pending record used to instantiate the parser theorems. -/
def pend0 : GitCommit String :=
  { hash := "deadbeef", date := "2024-01-01", message := "m", author := "a", email := "e",
    files := [], insertions := 0, deletions := 0, language := "" }

/-- A 40-character hash-shaped line. -/
def hash40 : String := "aaaaaaaaaaaaaaaaaaaaaaaaaaaaaaaaaaaaaaaa"

theorem parse_boundary_line_restarts_meta_witness :
    hash40.length = 40 ∧ containsTab hash40 = false ∧
    (parseLoop [hash40] (.stats pend0) = finalizeCommit pend0 ++ parseLoop [hash40] .meta
     ∧ finalizeCommit pend0 =
         (if pend0.hash = "" then []
          else [{ pend0 with language := detectLanguage pend0.files }])
     ∧ (∀ l2 l3 l4 l5 : String, ∀ rest2 : List String,
         parseLoop (hash40 :: l2 :: l3 :: l4 :: l5 :: rest2) .meta =
           parseLoop (rest2.dropWhile isBlankLine)
             (.stats { hash := hash40, date := l2, message := l3, author := l4, email := l5,
                       files := [], insertions := 0, deletions := 0, language := "" }))
     ∧ (∀ l : List String, l.length < 5 → parseLoop l .meta = [])) :=
  ⟨by decide, by decide,
   parse_boundary_line_restarts_meta pend0 hash40 [] (by decide) (by decide)⟩

/-- C4 counterexample: the whitespace-only line `"\t\t"` splits on tab into
exactly three fields, yet the Stats state skips it as a blank line instead
of accumulating it into the pending record (accumulation would append an
empty path to the files list). -/
theorem stats_blank_tab_line_not_accumulated :
    (splitTabs "\t\t").length = 3 ∧
    parseLoop ["\t\t"] (.stats pend0) ≠
      parseLoop [] (.stats (accumStat pend0 "" "" "")) := by
  constructor
  · decide
  · have hblank : isBlankLine "\t\t" = true := by decide
    have hlen : ¬ (("\t\t" : String).length = 40 ∧ containsTab "\t\t" = false) := by decide
    simp only [parseLoop, hblank, hlen, if_neg, if_pos, if_true, if_false]
    decide

/-- C4 (amended): a Stats-state line that is not whitespace-only and splits
on tab into exactly three fields is accumulated into the pending record
(`accumStat` maps a `"-"` placeholder in either numeric field to 0); a
Stats-state line that is not whitespace-only, is not a 40-character tab-free
record boundary, and does not split into three fields is skipped without
affecting the pending record — so malformed lines never abort the parse.
(Whitespace-only lines, even ones containing tabs, take the blank-line
branch first.) -/
theorem stats_line_accumulate_or_skip
    (c : GitCommit String) (line : String) (rest : List String)
    (hnb : isBlankLine line = false) :
    (∀ a b p : String, splitTabs line = [a, b, p] →
      parseLoop (line :: rest) (.stats c) = parseLoop rest (.stats (accumStat c a b p)))
    ∧ (¬ (line.length = 40 ∧ containsTab line = false) → (splitTabs line).length ≠ 3 →
      parseLoop (line :: rest) (.stats c) = parseLoop rest (.stats c)) := by
  constructor
  · intro a b p hsplit
    have htab : containsTab line = true := by
      apply containsTab_of_three
      rw [hsplit]
      rfl
    have hcond : ¬ (line.length = 40 ∧ containsTab line = false) := by
      simp [htab]
    simp [parseLoop, hcond, hnb, hsplit]
  · intro hcond h3
    rcases hs : splitTabs line with _ | ⟨x, _ | ⟨y, _ | ⟨z, _ | ⟨w, tl⟩⟩⟩⟩
    · simp [parseLoop, hcond, hnb, hs]
    · simp [parseLoop, hcond, hnb, hs]
    · simp [parseLoop, hcond, hnb, hs]
    · exact absurd (by rw [hs]; rfl) h3
    · simp [parseLoop, hcond, hnb, hs]

theorem stats_line_accumulate_or_skip_witness :
    isBlankLine "3\t1\tmain.go" = false ∧ isBlankLine "not a stat line" = false ∧
    ((∀ a b p : String, splitTabs "3\t1\tmain.go" = [a, b, p] →
       parseLoop ["3\t1\tmain.go"] (.stats pend0) = parseLoop [] (.stats (accumStat pend0 a b p)))
     ∧ (¬ (("3\t1\tmain.go" : String).length = 40 ∧ containsTab "3\t1\tmain.go" = false) →
        (splitTabs "3\t1\tmain.go").length ≠ 3 →
        parseLoop ["3\t1\tmain.go"] (.stats pend0) = parseLoop [] (.stats pend0)))
    ∧ ((∀ a b p : String, splitTabs "not a stat line" = [a, b, p] →
       parseLoop ["not a stat line"] (.stats pend0) =
         parseLoop [] (.stats (accumStat pend0 a b p)))
     ∧ (¬ (("not a stat line" : String).length = 40 ∧ containsTab "not a stat line" = false) →
        (splitTabs "not a stat line").length ≠ 3 →
        parseLoop ["not a stat line"] (.stats pend0) = parseLoop [] (.stats pend0))) :=
  ⟨by decide, by decide,
   stats_line_accumulate_or_skip pend0 "3\t1\tmain.go" [] (by decide),
   stats_line_accumulate_or_skip pend0 "not a stat line" [] (by decide)⟩

/-- C7: an input consisting of exactly one complete five-line header block
(newline-free fields, non-empty hash) and zero stat lines parses to exactly
one commit with zero insertions, zero deletions, an empty file list and
dominant language `"Unknown"`, which is what `detectLanguage` returns on an
empty file list. -/
theorem single_header_block_parses_to_unknown (h d m a e : String)
    (hn1 : h.data.count '\n' = 0) (hn2 : d.data.count '\n' = 0)
    (hn3 : m.data.count '\n' = 0) (hn4 : a.data.count '\n' = 0)
    (hn5 : e.data.count '\n' = 0) (hhash : h ≠ "") :
    parseRawLog (String.mk
        (h.data ++ '\n' :: (d.data ++ '\n' :: (m.data ++ '\n' :: (a.data ++ '\n' :: e.data))))) =
      [{ hash := h, date := d, message := m, author := a, email := e,
         files := [], insertions := 0, deletions := 0, language := "Unknown" }]
    ∧ detectLanguage [] = "Unknown" := by
  constructor
  · have hstep : parseRawLog (String.mk
        (h.data ++ '\n' :: (d.data ++ '\n' :: (m.data ++ '\n' :: (a.data ++ '\n' :: e.data))))) =
        parseLoop ((splitOnChar '\n'
          (h.data ++ '\n' :: (d.data ++ '\n' :: (m.data ++ '\n' :: (a.data ++ '\n' :: e.data))))).map
            String.mk) .meta := rfl
    rw [hstep, splitOnChar_append _ _ _ hn1, splitOnChar_append _ _ _ hn2,
        splitOnChar_append _ _ _ hn3, splitOnChar_append _ _ _ hn4,
        splitOnChar_no_sep _ _ hn5]
    simp only [List.map_cons, List.map_nil, mk_data]
    simp [parseLoop, finalizeCommit, hhash, detectLanguage]
  · rfl

theorem single_header_block_parses_to_unknown_witness :
    ("deadbeefdeadbeefdeadbeefdeadbeefdeadbeef" : String).data.count '\n' = 0 ∧
    ("2024-01-01T10:00:00+08:00" : String).data.count '\n' = 0 ∧
    ("hello" : String).data.count '\n' = 0 ∧
    ("Alice" : String).data.count '\n' = 0 ∧
    ("alice@example.com" : String).data.count '\n' = 0 ∧
    ("deadbeefdeadbeefdeadbeefdeadbeefdeadbeef" : String) ≠ "" ∧
    (parseRawLog (String.mk
        (("deadbeefdeadbeefdeadbeefdeadbeefdeadbeef" : String).data ++ '\n' ::
          (("2024-01-01T10:00:00+08:00" : String).data ++ '\n' ::
            (("hello" : String).data ++ '\n' ::
              (("Alice" : String).data ++ '\n' :: ("alice@example.com" : String).data))))) =
      [{ hash := "deadbeefdeadbeefdeadbeefdeadbeefdeadbeef", date := "2024-01-01T10:00:00+08:00",
         message := "hello", author := "Alice", email := "alice@example.com",
         files := [], insertions := 0, deletions := 0, language := "Unknown" }]
     ∧ detectLanguage [] = "Unknown") :=
  ⟨by decide, by decide, by decide, by decide, by decide, by decide,
   single_header_block_parses_to_unknown
     "deadbeefdeadbeefdeadbeefdeadbeefdeadbeef" "2024-01-01T10:00:00+08:00" "hello" "Alice"
     "alice@example.com" (by decide) (by decide) (by decide) (by decide) (by decide) (by decide)⟩

/-! ## Streak lemmas (C3) -/

/-- "Next date is exactly one day later" (the `diff(prev, 'days') === 1`
test between adjacent sorted dates). -/
def consecRel (p q : Nat) : Prop := (q : Int) - (p : Int) = 1

/-- The reversed orientation of `consecRel`. -/
def consecRelRev (p q : Nat) : Prop := (p : Int) - (q : Int) = 1

theorem lrAux_ge (tl : List Nat) (prev longest temp : Nat) :
    max longest temp ≤ lrAux prev longest temp tl := by
  induction tl generalizing prev longest temp with
  | nil => simp [lrAux]
  | cons d tl ih =>
    simp only [lrAux]
    split
    · exact le_trans (by omega) (ih d longest (temp + 1))
    · exact le_trans (by simp) (le_trans (le_max_left _ 1) (ih d (max longest temp) 1))

/-- Along a run of consecutive dates the temp counter grows by one per
element, so the final result is at least `temp` plus the run length. -/
theorem lrAux_chain (tl : List Nat) (prev longest temp : Nat)
    (h : List.Chain' consecRel (prev :: tl)) :
    temp + tl.length ≤ lrAux prev longest temp tl := by
  induction tl generalizing prev longest temp with
  | nil =>
    simp [lrAux]
  | cons d tl ih =>
    have hrel : consecRel prev d := (List.chain'_cons.mp h).1
    have htl : List.Chain' consecRel (d :: tl) := (List.chain'_cons.mp h).2
    have hrel' : (d : Int) - (prev : Int) = 1 := hrel
    simp only [lrAux, hrel', if_pos]
    have := ih d longest (temp + 1) htl
    simp only [List.length_cons]
    omega

/-- If the processed list ends in a consecutive run, the scan result is at
least the run length. -/
theorem lrAux_suffix (pre : List Nat) (a : Nat) (run : List Nat) (prev longest temp : Nat)
    (h : List.Chain' consecRel (a :: run)) :
    run.length + 1 ≤ lrAux prev longest temp (pre ++ a :: run) := by
  induction pre generalizing prev longest temp with
  | nil =>
    simp only [List.nil_append, lrAux]
    split
    · have := lrAux_chain run a longest (temp + 1) h
      omega
    · have := lrAux_chain run a (max longest temp) 1 h
      omega
  | cons p pre ih =>
    simp only [List.cons_append, lrAux]
    split
    · exact ih p longest (temp + 1)
    · exact ih p (max longest temp) 1

/-- `longestRun` dominates the length of any trailing consecutive run. -/
theorem longestRun_suffix (pre : List Nat) (a : Nat) (run : List Nat)
    (h : List.Chain' consecRel (a :: run)) :
    run.length + 1 ≤ longestRun (pre ++ a :: run) := by
  cases pre with
  | nil =>
    simp only [List.nil_append, longestRun]
    have := lrAux_chain run a 1 1 h
    omega
  | cons p pre =>
    simp only [List.cons_append, longestRun]
    exact lrAux_suffix pre a run p 1 1 h

/-- The list `[x, x-1, x-2, ...]` shape matched by the current-streak walk. -/
def IsDescRun (x : Int) : List Nat → Prop
  | [] => True
  | d :: tl => (d : Int) = x ∧ IsDescRun (x - 1) tl

/-- The current-streak walk consumes a maximal descending-by-one prefix of
the reversed date list. -/
theorem crAux_decomp (today : Nat) (l : List Nat) (c : Nat) :
    ∃ m r, l = m ++ r ∧ crAux today l c = c + m.length ∧
      IsDescRun ((today : Int) - (c : Int)) m := by
  induction l generalizing c with
  | nil => exact ⟨[], [], by simp, by simp [crAux], trivial⟩
  | cons d tl ih =>
    by_cases hd : (d : Int) = (today : Int) - (c : Int)
    · obtain ⟨m, r, hsplit, hcount, hdesc⟩ := ih (c + 1)
      refine ⟨d :: m, r, by simp [hsplit], ?_, ?_⟩
      · simp only [crAux, hd, if_pos]
        rw [hcount]
        simp only [List.length_cons]
        omega
      · refine ⟨hd, ?_⟩
        have hshift : ((today : Int) - (c : Int)) - 1 = (today : Int) - ((c + 1 : Nat) : Int) := by
          push_cast
          ring
        rw [show IsDescRun ((today : Int) - (c : Int) - 1) m =
              IsDescRun ((today : Int) - ((c + 1 : Nat) : Int)) m from by rw [hshift]]
        exact hdesc
    · exact ⟨[], d :: tl, by simp, by simp [crAux, hd], trivial⟩

/-- A descending run is chained by "previous minus current equals one". -/
theorem descRun_chain (m : List Nat) (x : Int) (h : IsDescRun x m) :
    List.Chain' consecRelRev m := by
  induction m generalizing x with
  | nil => simp
  | cons d tl ih =>
    obtain ⟨hd, htl⟩ := h
    cases tl with
    | nil => simp
    | cons e tl2 =>
      obtain ⟨he, htl2⟩ := htl
      refine List.chain'_cons.mpr ⟨?_, ih (x - 1) ⟨he, htl2⟩⟩
      show (d : Int) - (e : Int) = 1
      rw [hd, he]
      ring

/-- The current streak never exceeds the longest streak: the dates matched
while walking backward from today form a consecutive run at the end of the
sorted date list, and the longest-run scan dominates every such run. -/
theorem currentRun_le_longestRun (dates : List Nat) (today : Nat) :
    currentRun dates today ≤ longestRun dates := by
  obtain ⟨m, r, hsplit, hcount, hdesc⟩ := crAux_decomp today dates.reverse 0
  have hcur : currentRun dates today = m.length := by
    simp [currentRun, hcount]
  cases hm : m with
  | nil => simp [hcur, hm]
  | cons d tl =>
    have hmne : m ≠ [] := by simp [hm]
    obtain ⟨a, run, hrev⟩ : ∃ a run, m.reverse = a :: run := by
      cases hr : m.reverse with
      | nil => exact absurd (by simpa using congrArg List.reverse hr) hmne
      | cons a run => exact ⟨a, run, rfl⟩
    have hchain : List.Chain' consecRel (a :: run) := by
      rw [← hrev, List.chain'_reverse]
      exact List.Chain'.imp (fun p q hpq => hpq) (descRun_chain m _ hdesc)
    have hdates : dates = r.reverse ++ a :: run := by
      have h2 : dates.reverse.reverse = (m ++ r).reverse := congrArg List.reverse hsplit
      simpa [List.reverse_append, hrev] using h2
    have hlen : m.length = run.length + 1 := by
      have h1 := congrArg List.length hrev
      simp at h1
      omega
    rw [hcur, hdates, hlen]
    exact longestRun_suffix r.reverse a run hchain

/-- C3: for every commit list and every current date, the streak statistics
satisfy `longestStreak ≥ currentStreak ≥ 0`, and on the empty commit list
all three fields are 0. -/
theorem streaks_current_le_longest (commits : List Commit) (today : Nat) :
    (analyzeStreaks commits today).currentStreak ≤ (analyzeStreaks commits today).longestStreak
    ∧ 0 ≤ (analyzeStreaks commits today).currentStreak
    ∧ analyzeStreaks [] today =
        { longestStreak := 0, currentStreak := 0, totalActiveDays := 0 } := by
  refine ⟨?_, Nat.zero_le _, rfl⟩
  unfold analyzeStreaks
  split
  · simp
  · exact currentRun_le_longestRun (activeDates commits) today

/-! ## Punch-card lemmas (C2) -/

theorem incAt_length (l : List Nat) (i : Nat) : (incAt l i).length = l.length := by
  induction l generalizing i with
  | nil => simp [incAt]
  | cons x tl ih =>
    cases i with
    | zero => simp [incAt]
    | succ n => simp [incAt, ih]

theorem incAt_sum (l : List Nat) (i : Nat) (h : i < l.length) :
    (incAt l i).sum = l.sum + 1 := by
  induction l generalizing i with
  | nil => simp at h
  | cons x tl ih =>
    cases i with
    | zero =>
      simp only [incAt, List.sum_cons]
      omega
    | succ n =>
      simp only [incAt, List.sum_cons]
      rw [ih n (by simpa using h)]
      omega

/-- Sum of all punch-card cells. -/
def punchCardSum (card : List (List Nat)) : Nat :=
  (card.map List.sum).sum

theorem incCard_length (card : List (List Nat)) (d h : Nat) :
    (incCard card d h).length = card.length := by
  induction card generalizing d with
  | nil => simp [incCard]
  | cons row tl ih =>
    cases d with
    | zero => simp [incCard]
    | succ n => simp [incCard, ih]

theorem incCard_rows (card : List (List Nat)) (d h : Nat) (row : List Nat)
    (hrow : row ∈ incCard card d h) :
    row ∈ card ∨ ∃ r ∈ card, row = incAt r h := by
  induction card generalizing d with
  | nil => simp [incCard] at hrow
  | cons r0 tl ih =>
    cases d with
    | zero =>
      simp only [incCard, List.mem_cons] at hrow
      rcases hrow with h1 | h1
      · exact Or.inr ⟨r0, by simp, h1⟩
      · exact Or.inl (by simp [h1])
    | succ n =>
      simp only [incCard, List.mem_cons] at hrow
      rcases hrow with h1 | h1
      · exact Or.inl (by simp [h1])
      · rcases ih n h1 with h2 | ⟨r, hr, hrr⟩
        · exact Or.inl (by simp [h2])
        · exact Or.inr ⟨r, by simp [hr], hrr⟩

theorem incCard_sum (card : List (List Nat)) (d h : Nat)
    (hd : d < card.length)
    (hh : ∀ row ∈ card, h < row.length) :
    punchCardSum (incCard card d h) = punchCardSum card + 1 := by
  induction card generalizing d with
  | nil => simp at hd
  | cons row tl ih =>
    cases d with
    | zero =>
      simp only [incCard, punchCardSum, List.map_cons, List.sum_cons]
      rw [incAt_sum row h (hh row (by simp))]
      omega
    | succ n =>
      simp only [incCard, punchCardSum, List.map_cons, List.sum_cons]
      have := ih n (by simpa using hd) (fun r hr => hh r (by simp [hr]))
      simp only [punchCardSum] at this
      omega

/-- Shape invariant: the punch-card accumulator always stays a 7×24 grid. -/
def CardShape (card : List (List Nat)) : Prop :=
  card.length = 7 ∧ ∀ row ∈ card, row.length = 24

theorem incCard_shape (card : List (List Nat)) (d h : Nat) (hs : CardShape card) :
    CardShape (incCard card d h) := by
  obtain ⟨h7, h24⟩ := hs
  refine ⟨by rw [incCard_length, h7], ?_⟩
  intro row hrow
  rcases incCard_rows card d h row hrow with h1 | ⟨r, hr, hrr⟩
  · exact h24 row h1
  · rw [hrr, incAt_length]
    exact h24 r hr

theorem punchFold_sum (cs : List Commit) (card : List (List Nat)) (hs : CardShape card) :
    punchCardSum (cs.foldl (fun card c => incCard card c.date.dow.val c.date.hour.val) card) =
      punchCardSum card + cs.length := by
  induction cs generalizing card with
  | nil => simp
  | cons c tl ih =>
    simp only [List.foldl_cons]
    rw [ih _ (incCard_shape card _ _ hs)]
    rw [incCard_sum card c.date.dow.val c.date.hour.val
      (by rw [hs.1]; exact c.date.dow.isLt)
      (fun row hrow => by rw [hs.2 row hrow]; exact c.date.hour.isLt)]
    simp only [List.length_cons]
    omega

/-- C2: the sum of all 168 punch-card cells produced by `analyzePunchCard`
equals the length of the commit list, which is exactly the `totalCommits`
field of the analysis result. -/
theorem punchCard_sum_eq_totalCommits (commits : List Commit) (repoPath : String)
    (clock : Clock) :
    punchCardSum (analyzePunchCard commits) = commits.length
    ∧ (analyze commits repoPath clock).punchCard = analyzePunchCard commits
    ∧ (analyze commits repoPath clock).totalCommits = commits.length := by
  refine ⟨?_, rfl, rfl⟩
  unfold analyzePunchCard
  rw [punchFold_sum commits _ ⟨by simp, fun row hrow => by
    simp only [List.mem_replicate] at hrow
    rw [hrow.2]
    simp⟩]
  simp [punchCardSum, List.sum_replicate]

/-- C5: on the empty commit list every aggregate of `analyze` reaches its
zero/empty baseline: zero totals, empty language map, empty time maps, zero
streaks, an all-zero punch card and no keywords.  (The only division sites,
the language percentages, are unreachable because the map is empty.) -/
theorem analyze_empty_baselines (repoPath : String) (clock : Clock) :
    (analyze [] repoPath clock).totalCommits = 0
    ∧ (analyze [] repoPath clock).totalInsertions = 0
    ∧ (analyze [] repoPath clock).totalDeletions = 0
    ∧ (analyze [] repoPath clock).netLines = 0
    ∧ (analyze [] repoPath clock).languageStats = []
    ∧ (analyze [] repoPath clock).timeStats =
        { byHour := [], byDayOfWeek := [], byMonth := [] }
    ∧ (analyze [] repoPath clock).streakStats =
        { longestStreak := 0, currentStreak := 0, totalActiveDays := 0 }
    ∧ (analyze [] repoPath clock).punchCard = List.replicate 7 (List.replicate 24 0)
    ∧ (analyze [] repoPath clock).topKeywords = [] :=
  ⟨rfl, rfl, rfl, rfl, rfl, rfl, rfl, rfl, rfl⟩

/-- Zeroed analysis result used to instantiate the persona theorems. -/
def stats0 : GitAnalysisResult :=
  { totalCommits := 0, totalInsertions := 0, totalDeletions := 0, netLines := 0,
    languageStats := [],
    timeStats := { byHour := [], byDayOfWeek := [], byMonth := [] },
    streakStats := { longestStreak := 0, currentStreak := 0, totalActiveDays := 0 },
    projectStats := [],
    commitTrends := { monthly := [], daily := [] },
    punchCard := [], topKeywords := [], achievements := [],
    persona := { title := "", description := "" } }

/-- C8 counterexample: with identical input statistics but two different
wall-clock years, `calculatePersona` returns different pairs — the default
branch embeds `new Date().getFullYear()` in the description, so the output
is not a function of the input statistics alone. -/
theorem persona_depends_on_clock_year :
    calculatePersona stats0 2024 ≠ calculatePersona stats0 2025 := by
  decide

/-- C8 (amended): `calculatePersona` is deterministic given the input
statistics and the clock year; the title component depends on the input
statistics only, while the default-branch description additionally embeds
the current calendar year. -/
theorem persona_title_deterministic (stats : GitAnalysisResult) (y1 y2 : Nat) :
    (calculatePersona stats y1).title = (calculatePersona stats y2).title := by
  unfold calculatePersona
  split_ifs <;> rfl

/-- C9: `mergeAnalysisResults` applied to the empty input list throws (the
embedding returns the thrown message as an `Except.error`) instead of
returning an empty merged result. -/
theorem merge_empty_throws (clock : Clock) :
    mergeAnalysisResults [] clock = Except.error "没有可合并的分析结果" := rfl

/-! ## Merge lemmas (C6, C10) -/

theorem mergeFold_fields (rs : List MergeInput) (acc : GitAnalysisResult × List ProjectDetail) :
    (rs.foldl mergeStep acc).1.totalCommits =
      acc.1.totalCommits + (rs.map (fun x => x.result.totalCommits)).sum
    ∧ (rs.foldl mergeStep acc).1.totalInsertions =
      acc.1.totalInsertions + (rs.map (fun x => x.result.totalInsertions)).sum
    ∧ (rs.foldl mergeStep acc).1.totalDeletions =
      acc.1.totalDeletions + (rs.map (fun x => x.result.totalDeletions)).sum
    ∧ (rs.foldl mergeStep acc).1.netLines =
      acc.1.netLines + (rs.map (fun x => x.result.netLines)).sum
    ∧ (rs.foldl mergeStep acc).1.streakStats.totalActiveDays =
      acc.1.streakStats.totalActiveDays +
        (rs.map (fun x => x.result.streakStats.totalActiveDays)).sum
    ∧ (rs.foldl mergeStep acc).1.streakStats.longestStreak =
      (rs.map (fun x => x.result.streakStats.longestStreak)).foldl max
        acc.1.streakStats.longestStreak
    ∧ (rs.foldl mergeStep acc).1.streakStats.currentStreak =
      (rs.map (fun x => x.result.streakStats.currentStreak)).foldl max
        acc.1.streakStats.currentStreak
    ∧ (rs.foldl mergeStep acc).2 = acc.2 ++ rs.map toDetail := by
  induction rs generalizing acc with
  | nil => simp
  | cons x tl ih =>
    obtain ⟨i1, i2, i3, i4, i5, i6, i7, i8⟩ := ih (mergeStep acc x)
    simp only [List.foldl_cons, List.map_cons, List.sum_cons]
    refine ⟨?_, ?_, ?_, ?_, ?_, ?_, ?_, ?_⟩
    · rw [i1]
      simp only [mergeStep]
      omega
    · rw [i2]
      simp only [mergeStep]
      omega
    · rw [i3]
      simp only [mergeStep]
      omega
    · rw [i4]
      simp only [mergeStep]
      omega
    · rw [i5]
      simp only [mergeStep]
      omega
    · rw [i6]
      rfl
    · rw [i7]
      rfl
    · rw [i8]
      simp [mergeStep]

theorem mem_updateById_id {l : List Achievement} {i : String} {f : Achievement → Achievement}
    {a : Achievement} (ha : a ∈ updateById l i f) (hf : ∀ b, (f b).id = b.id) :
    ∃ b ∈ l, a.id = b.id := by
  induction l with
  | nil => simp [updateById] at ha
  | cons b tl ih =>
    simp only [updateById] at ha
    by_cases hb : b.id = i
    · rw [if_pos hb] at ha
      rcases List.mem_cons.mp ha with h | h
      · exact ⟨b, by simp, by rw [h, hf]⟩
      · exact ⟨a, by simp [h], rfl⟩
    · rw [if_neg hb] at ha
      rcases List.mem_cons.mp ha with h | h
      · exact ⟨b, by simp, by rw [h]⟩
      · obtain ⟨c, hc, hid⟩ := ih h
        exact ⟨c, by simp [hc], hid⟩

/-- Every id the per-repository achievement catalogue can emit. -/
def catalogueIds : List String :=
  ["first-commit", "100-commits", "500-commits", "1000-commits", "night-owl",
   "weekend-warrior", "consistency-king", "polyglot", "early-bird", "midnight-coder",
   "code-rocket", "bug-terminator", "refactor-artist", "doc-master", "quality-guardian",
   "code-giant", "minimalist", "active-developer"]

theorem calcAch_id_mem (stats : GitAnalysisResult) (commits : List Commit)
    (a : Achievement) (ha : a ∈ calculateAchievements stats commits) :
    a.id ∈ catalogueIds := by
  simp only [calculateAchievements] at ha
  have ha2 := List.mem_of_mem_filter ha
  rw [List.mem_append] at ha2
  rcases ha2 with h | h
  · obtain ⟨b, hb, hab⟩ := mem_updateById_id h (fun b => rfl)
    obtain ⟨c, hc, hbc⟩ := mem_updateById_id hb (fun b => rfl)
    rw [hab, hbc]
    simp only [List.mem_cons, List.not_mem_nil, or_false] at hc
    rcases hc with h | h | h | h | h | h | h | h <;> simp [catalogueIds, h]
  · simp only [List.mem_cons, List.not_mem_nil, or_false] at h
    rcases h with h | h | h | h | h | h | h | h | h | h <;> simp [catalogueIds, h]

theorem calcAch_no_loyal (stats : GitAnalysisResult) (commits : List Commit) :
    "loyal-developer" ∉ (calculateAchievements stats commits).map (fun a => a.id) := by
  intro hmem
  simp only [List.mem_map] at hmem
  obtain ⟨a, ha, hid⟩ := hmem
  have := calcAch_id_mem stats commits a ha
  rw [hid] at this
  simp [catalogueIds] at this

theorem projMilestones_no_loyal (n : Nat) :
    "loyal-developer" ∉ (projMilestones n).map (fun a => a.id) := by
  unfold projMilestones
  split_ifs <;> simp

theorem activeMilestones_no_loyal (n : Nat) :
    "loyal-developer" ∉ (activeMilestones n).map (fun a => a.id) := by
  unfold activeMilestones
  split_ifs <;> simp

theorem focusedMilestone_no_loyal (t a : Nat) :
    "loyal-developer" ∉ (focusedMilestone t a).map (fun x => x.id) := by
  unfold focusedMilestone
  split_ifs <;> simp

theorem langDiversityMilestones_no_loyal (l : List ProjectDetail) :
    "loyal-developer" ∉ (langDiversityMilestones l).map (fun x => x.id) := by
  simp only [langDiversityMilestones]
  split_ifs <;> simp

theorem loyalMilestone_mem (t a : Nat) :
    ("loyal-developer" ∈ (loyalMilestone t a).map (fun x => x.id)) ↔ (t = 1 ∧ a = 1) := by
  unfold loyalMilestone
  split_ifs with h
  · simp only [List.map_cons, List.map_nil, List.mem_cons]
    simp [h]
  · simp [h]

/-- The "loyal" milestone fires in the merged result exactly when there is
one project in total and one active project, provided the incoming
achievement list does not already contain it. -/
theorem addProjectMilestones_loyal (m : GitAnalysisResult) (d : List ProjectDetail) (y : Nat)
    (hm : "loyal-developer" ∉ m.achievements.map (fun a => a.id)) :
    (("loyal-developer" ∈ (addProjectMilestones m d y).achievements.map (fun a => a.id)) ↔
      (d.length = 1 ∧ (d.filter (fun p => p.active)).length = 1)) := by
  unfold addProjectMilestones
  simp only [List.map_append, List.mem_append]
  rw [loyalMilestone_mem]
  have h1 := projMilestones_no_loyal d.length
  have h2 := activeMilestones_no_loyal (d.filter (fun p => p.active)).length
  have h3 := focusedMilestone_no_loyal d.length (d.filter (fun p => p.active)).length
  have h4 := langDiversityMilestones_no_loyal (d.filter (fun p => p.active))
  simp [hm, h1, h2, h3, h4]

theorem mergeDetails_eq (results : List MergeInput) :
    mergeDetailsSorted results =
      sortJS (fun a b => decide (b.commits ≤ a.commits)) (results.map toDetail) := by
  have f8 := (mergeFold_fields results (emptyMerged, [])).2.2.2.2.2.2.2
  unfold mergeDetailsSorted mergeAggregate
  rw [f8]
  simp

theorem mergeDetails_length (results : List MergeInput) :
    (mergeDetailsSorted results).length = results.length := by
  rw [mergeDetails_eq, (sortJS_perm _ _).length_eq]
  simp

theorem mergeDetails_filter_active (results : List MergeInput) :
    ((mergeDetailsSorted results).filter (fun p => p.active)).length =
      (results.filter (fun x => decide (x.result.totalCommits > 0))).length := by
  rw [mergeDetails_eq]
  have hp := ((sortJS_perm (fun a b => decide (b.commits ≤ a.commits))
    (results.map toDetail)).filter (fun p => p.active)).length_eq
  rw [hp, ← List.countP_eq_length_filter, List.countP_map, ← List.countP_eq_length_filter]
  rfl

theorem mergeDetails_active (results : List MergeInput) (p : ProjectDetail)
    (hp : p ∈ mergeDetailsSorted results) :
    p.active = decide (p.commits > 0) := by
  rw [mergeDetails_eq] at hp
  have hmem := (sortJS_perm _ _).mem_iff.mp hp
  simp only [List.mem_map] at hmem
  obtain ⟨x, _, hpx⟩ := hmem
  rw [← hpx]
  rfl

/-- C6: for every non-empty input list, the merger sums the scalar totals,
takes the maximum of the inputs' longest and current streaks, marks as
active exactly the inputs with positive commit totals, and unlocks the
singleton "loyal" milestone exactly when there is one project in total and
one active project. -/
theorem merge_sums_maxes_active_loyal (results : List MergeInput) (clock : Clock)
    (h : results ≠ []) :
    mergeAnalysisResults results clock = Except.ok (mergeBody results clock)
    ∧ (mergeBody results clock).result.totalCommits =
        (results.map (fun x => x.result.totalCommits)).sum
    ∧ (mergeBody results clock).result.totalInsertions =
        (results.map (fun x => x.result.totalInsertions)).sum
    ∧ (mergeBody results clock).result.totalDeletions =
        (results.map (fun x => x.result.totalDeletions)).sum
    ∧ (mergeBody results clock).result.netLines =
        (results.map (fun x => x.result.netLines)).sum
    ∧ (mergeBody results clock).result.streakStats.longestStreak =
        (results.map (fun x => x.result.streakStats.longestStreak)).foldl max 0
    ∧ (mergeBody results clock).result.streakStats.currentStreak =
        (results.map (fun x => x.result.streakStats.currentStreak)).foldl max 0
    ∧ ((mergeBody results clock).projectDetails.filter (fun p => p.active)).length =
        (results.filter (fun x => decide (x.result.totalCommits > 0))).length
    ∧ (∀ p ∈ (mergeBody results clock).projectDetails, p.active = decide (p.commits > 0))
    ∧ (("loyal-developer" ∈
          (mergeBody results clock).result.achievements.map (fun a => a.id)) ↔
        (results.length = 1 ∧
         (results.filter (fun x => decide (x.result.totalCommits > 0))).length = 1)) := by
  obtain ⟨f1, f2, f3, f4, f5, f6, f7, f8⟩ := mergeFold_fields results (emptyMerged, [])
  have hne : ¬ (results.length = 0) := by
    simpa [List.length_eq_zero] using h
  refine ⟨by simp [mergeAnalysisResults, hne], ?_, ?_, ?_, ?_, ?_, ?_, ?_, ?_, ?_⟩
  · show (results.foldl mergeStep (emptyMerged, [])).1.totalCommits = _
    rw [f1]
    simp [emptyMerged]
  · show (results.foldl mergeStep (emptyMerged, [])).1.totalInsertions = _
    rw [f2]
    simp [emptyMerged]
  · show (results.foldl mergeStep (emptyMerged, [])).1.totalDeletions = _
    rw [f3]
    simp [emptyMerged]
  · show (results.foldl mergeStep (emptyMerged, [])).1.netLines = _
    rw [f4]
    simp [emptyMerged]
  · show (results.foldl mergeStep (emptyMerged, [])).1.streakStats.longestStreak = _
    rw [f6]
    rfl
  · show (results.foldl mergeStep (emptyMerged, [])).1.streakStats.currentStreak = _
    rw [f7]
    rfl
  · exact mergeDetails_filter_active results
  · exact fun p hp => mergeDetails_active results p hp
  · have hm : "loyal-developer" ∉
        (mergeWithPersona results clock).achievements.map (fun a => a.id) := by
      show "loyal-developer" ∉
        (calculateAchievements (mergeRecompute results) []).map (fun a => a.id)
      exact calcAch_no_loyal _ _
    show ("loyal-developer" ∈
        (addProjectMilestones (mergeWithPersona results clock)
          (mergeDetailsSorted results) clock.year).achievements.map (fun a => a.id)) ↔ _
    rw [addProjectMilestones_loyal _ _ _ hm, mergeDetails_length,
        mergeDetails_filter_active]

/-- C10: for every non-empty input list, the merged `totalActiveDays` is
the arithmetic sum of the inputs' `totalActiveDays` (not a distinct-date
union and not a maximum). -/
theorem merge_activeDays_is_sum (results : List MergeInput) (clock : Clock)
    (h : results ≠ []) :
    mergeAnalysisResults results clock = Except.ok (mergeBody results clock)
    ∧ (mergeBody results clock).result.streakStats.totalActiveDays =
        (results.map (fun x => x.result.streakStats.totalActiveDays)).sum := by
  have f5 := (mergeFold_fields results (emptyMerged, [])).2.2.2.2.1
  have hne : ¬ (results.length = 0) := by
    simpa [List.length_eq_zero] using h
  refine ⟨by simp [mergeAnalysisResults, hne], ?_⟩
  show (results.foldl mergeStep (emptyMerged, [])).1.streakStats.totalActiveDays = _
  rw [f5]
  simp [emptyMerged]

/-- A merge input holding only a commit total (all other aggregates zero). -/
def miTotal (n : Nat) (name : String) : MergeInput :=
  { result := { stats0 with totalCommits := n },
    projectPath := "/repos/" ++ name, projectName := name }

/-- The spec's {10, 0, 5} merge example. -/
def sampleInputs : List MergeInput := [miTotal 10 "a", miTotal 0 "b", miTotal 5 "c"]

/-- Fixed wall clock for the witnesses. -/
def clock0 : Clock := { today := 20000, year := 2025 }

theorem merge_sums_maxes_active_loyal_witness :
    sampleInputs ≠ [] ∧
    (mergeBody sampleInputs clock0).result.totalCommits = 15 ∧
    ((mergeBody sampleInputs clock0).projectDetails.filter (fun p => p.active)).length = 2 ∧
    ¬ ("loyal-developer" ∈
        (mergeBody sampleInputs clock0).result.achievements.map (fun a => a.id)) := by
  have hne : sampleInputs ≠ [] := by simp [sampleInputs]
  obtain ⟨hok, h1, h2, h3, h4, h5, h6, h7, h8, h9⟩ :=
    merge_sums_maxes_active_loyal sampleInputs clock0 hne
  refine ⟨hne, ?_, ?_, ?_⟩
  · rw [h1]
    decide
  · rw [h7]
    decide
  · rw [h9]
    decide

/-- A single-repository result with one commit on one active day. -/
def oneDayResult : GitAnalysisResult :=
  { stats0 with
      totalCommits := 1,
      streakStats := { longestStreak := 1, currentStreak := 1, totalActiveDays := 1 } }

/-- Two single-repository results active on the same calendar day. -/
def sample2 : List MergeInput :=
  [{ result := oneDayResult, projectPath := "/repos/x", projectName := "x" },
   { result := oneDayResult, projectPath := "/repos/y", projectName := "y" }]

theorem merge_activeDays_is_sum_witness :
    sample2 ≠ [] ∧
    (mergeBody sample2 clock0).result.streakStats.totalActiveDays = 2 := by
  have hne : sample2 ≠ [] := by simp [sample2]
  obtain ⟨hok, hsum⟩ := merge_activeDays_is_sum sample2 clock0 hne
  refine ⟨hne, ?_⟩
  rw [hsum]
  decide
